import Mathlib

/-
Verification of the revision/transaction engine of django-versions
(src/versions/base.py), shallowly embedded in Lean 4.

Conventions of the embedding:
* Python mutable state becomes explicit state passing: every method of
  RevisionManager that touches `self._state` takes a `RevisionState` and
  returns the new one.
* Python dicts become association lists (`List (key, value)`) with
  insertion-order semantics: overwriting an existing key keeps its
  position, a fresh key is appended at the end, exactly as CPython dicts
  and `collections.defaultdict` behave.
* Raised exceptions become `Except PyErr`.
* The pluggable backend repository (an external collaborator of the core,
  see spec section 6) is abstracted by a commit function passed in as a
  parameter; the item maps it was invoked with are additionally returned
  as an explicit call log so that theorems can speak about which commit
  calls happened.
* Serialized snapshot blobs are byte lists (`List Nat`).
-/

/-- Errors raised by the embedded code. `nameError n` models CPython
raising `NameError` when a `raise` statement mentions an identifier `n`
that is neither defined nor imported in the module; `keyError` models a
failing dict subscript; `configurationError` models Django's
`ImproperlyConfigured`; `attributeError` models accessing a missing
instance attribute; `multipleParents` models `VersionsMultipleParents`;
`storageError` models a backend durability failure. -/
inductive PyErr where
  | nameError (missingName : String)
  | keyError (key : String)
  | configurationError (key : String)
  | attributeError (attr : String)
  | multipleParents (msg : String)
  | storageError (repo : String)
deriving DecidableEq, Repr

/-- Serialized snapshot bytes, the output of `RevisionManager.serialize`. -/
abbrev Snap := List Nat

/-- One repository's buffered map, item path to snapshot bytes. -/
abbrev ItemMap := List (String × Snap)

/-- The buffered object map `self._state.objects`: repository name to
item map (`defaultdict(dict)` in the source, base.py:41). -/
abbrev Objects := List (String × ItemMap)

/-- Abstract identifier for the Version object a backend commit returns. -/
abbrev VersionTok := Nat

/-- Log of backend commit invocations: each entry records the repository
name and the item map the repository's `commit` was called with. -/
abbrev CommitLog := List (String × ItemMap)

/-- The backend commit operation `self[repo].commit(items)` (spec section 6:
`commit(itemPathToSnapshotBytes) -> Version`, may fail with a StorageError). -/
abbrev CommitFn := String → ItemMap → Except PyErr VersionTok

/-- Lift an infallible commit function into `CommitFn`. -/
def liftOk (cf : String → ItemMap → VersionTok) : CommitFn :=
  fun repo items => Except.ok (cf repo items)

/-- Association-list update with CPython dict semantics: overwrite in
place if the key exists, append at the end otherwise. -/
def setA (k : String) (v : α) : List (String × α) → List (String × α)
  | [] => [(k, v)]
  | (k2, v2) :: rest => if k2 = k then (k, v) :: rest else (k2, v2) :: setA k v rest

/-- Two-level lookup `objects[repo][item]` on the buffered object map. -/
def lookup2 (repo item : String) (o : Objects) : Option Snap :=
  (List.lookup repo o).bind (List.lookup item)

/-- The statement `self._state.objects[repo][item] = data` (base.py:93):
`objects` is a `defaultdict(dict)`, so a missing repository key first
materializes an empty item map. -/
def stageInsert (repo item : String) (data : Snap) (o : Objects) : Objects :=
  setA repo (setA item data ((List.lookup repo o).getD [])) o

/-- `RevisionState` (base.py:36-45): the per-execution-context transaction
state. In the source the fields are set by `reset()` in `__init__`. -/
structure RevisionState where
  objects : Objects
  user : Option Nat
  message : String
  depth : Nat
  is_invalid : Bool
deriving DecidableEq, Repr

/-- `RevisionState.reset` (base.py:40-45): the state all fields are put
back to; in the state-passing embedding resetting returns this state. -/
def RevisionState.reset : RevisionState :=
  { objects := [], user := none, message := "", depth := 0, is_invalid := false }

namespace RevisionManager

/-- `RevisionManager.is_active` (base.py:54-55): `self._state.depth > 0`. -/
def is_active (s : RevisionState) : Bool :=
  decide (0 < s.depth)

/-- `RevisionManager.assert_active` (base.py:57-60). The source executes
`raise VersionsManagementException(...)`, but that identifier is neither
defined in base.py nor among its imports (line 24 imports only
`VersionDoesNotExist` and `VersionsMultipleParents` from
versions.exceptions), so CPython raises
`NameError: name VersionsManagementException is not defined`
instead of the intended management exception. -/
def assert_active (s : RevisionState) : Except PyErr Unit :=
  if is_active s then Except.ok () else Except.error (.nameError "VersionsManagementException")

/-- `RevisionManager.start` (base.py:62-63): `self._state.depth += 1`. -/
def start (s : RevisionState) : RevisionState :=
  { s with depth := s.depth + 1 }

/-- `RevisionManager.invalidate` (base.py:65-67): guard with
`assert_active`, then `self._state.is_invalid = True`. -/
def invalidate (s : RevisionState) : Except PyErr RevisionState :=
  match assert_active s with
  | Except.error e => Except.error e
  | Except.ok _ => Except.ok { s with is_invalid := true }

/-- `RevisionManager.is_invalid` (base.py:69-70). -/
def is_invalid (s : RevisionState) : Bool :=
  s.is_invalid

/-- The `for repo, items in objects.items(): revisions[repo] = self[repo].commit(items)`
loop of `finish` (base.py:81-82), with the backend abstracted by `cf`.
Returns the built `revisions` mapping (or the first raised error) and the
log of commit invocations made, in order. -/
def commitLoop (cf : CommitFn) : Objects → Except PyErr (List (String × VersionTok)) × CommitLog
  | [] => (Except.ok [], [])
  | (repo, items) :: rest =>
    match cf repo items with
    | Except.error e => (Except.error e, [(repo, items)])
    | Except.ok v =>
      match commitLoop cf rest with
      | (Except.ok vs, log) => (Except.ok ((repo, v) :: vs), (repo, items) :: log)
      | (Except.error e, log) => (Except.error e, (repo, items) :: log)

/-- `RevisionManager.finish` (base.py:72-85): assert active, decrement
depth; if depth reached 0, then inside a try/finally that always resets
the state, commit every buffered repository's item map unless the buffer
is empty or the transaction was invalidated. Result components: the
returned `revisions` mapping (or the propagated error), the commit
invocation log, and the state after the call. -/
def finish (cf : CommitFn) (s : RevisionState) :
    Except PyErr (List (String × VersionTok)) × CommitLog × RevisionState :=
  match assert_active s with
  | Except.error e => (Except.error e, [], s)
  | Except.ok _ =>
    let s1 : RevisionState := { s with depth := s.depth - 1 }
    if s1.depth = 0 then
      if !s1.objects.isEmpty && !is_invalid s1 then
        let r := commitLoop cf s1.objects
        (r.1, r.2, RevisionState.reset)
      else
        (Except.ok [], [], RevisionState.reset)
    else
      (Except.ok [], [], s1)

end RevisionManager

/-- The versioned model class metadata `stage` consults:
`cls.__module__`, `cls.__name__` and `cls._versions_options.repository`
(set from the per-type `Versions` options, models.py:23, default
`"default"`). -/
structure PyClass where
  moduleName : String
  clsName : String
  repository : String
deriving DecidableEq, Repr

/-- A model instance as seen by `stage`: its class, its primary key
(`instance._get_pk_val()`), and `snapshot`, the serialized bytes
`self.serialize(instance, related_updates=related_updates)` produces for
its current field/related state (base.py:90). -/
structure Instance where
  cls : PyClass
  pk : Nat
  snapshot : Snap
deriving DecidableEq, Repr

namespace RevisionManager

/-- `RevisionManager.repository_path` (base.py:165-166):
`cls._versions_options.repository`. -/
def repository_path (cls : PyClass) (_pk : Nat) : String :=
  cls.repository

/-- Python `str.lower()` on ASCII identifiers: lower-case every
character. -/
def pyLower (s : String) : String :=
  String.mk (s.data.map Char.toLower)

/-- `RevisionManager.item_path` (base.py:168-169):
`os.path.join(cls.__module__.lower(), cls.__name__.lower(), str(pk))`. -/
def item_path (cls : PyClass) (pk : Nat) : String :=
  pyLower cls.moduleName ++ "/" ++ pyLower cls.clsName ++ "/" ++ toString pk

/-- `RevisionManager.stage` (base.py:87-96): resolve repository and item
path, compute the snapshot, then either buffer it (transaction active) or
commit the single-item map immediately (no transaction active). Result:
the returned value (`None` when buffered, the commit's Version when
committed immediately, or the propagated commit error), the commit
invocation log, and the new state. -/
def stage (cf : CommitFn) (inst : Instance) (s : RevisionState) :
    Except PyErr (Option VersionTok) × CommitLog × RevisionState :=
  let repo := repository_path inst.cls inst.pk
  let item := item_path inst.cls inst.pk
  let data := inst.snapshot
  if is_active s then
    (Except.ok none, [], { s with objects := stageInsert repo item data s.objects })
  else
    match cf repo [(item, data)] with
    | Except.ok v => (Except.ok (some v), [(repo, [(item, data)])], s)
    | Except.error e => (Except.error e, [(repo, [(item, data)])], s)

end RevisionManager

/-- One call made against the revision manager in an execution context:
`start()`, `stage(instance)`, `invalidate()` or `finish()`. -/
inductive Op where
  | startOp
  | stageOp (inst : Instance)
  | invalidateOp
  | finishOp
deriving DecidableEq, Repr

/-- State transition of one manager call, together with the backend commit
invocations it made. A raised error leaves the state as the source leaves
it (`invalidate` raises before mutating anything). -/
def applyOp (cf : CommitFn) : Op → RevisionState → RevisionState × CommitLog
  | Op.startOp, s => (RevisionManager.start s, [])
  | Op.stageOp inst, s =>
    let r := RevisionManager.stage cf inst s
    (r.2.2, r.2.1)
  | Op.invalidateOp, s =>
    match RevisionManager.invalidate s with
    | Except.ok s2 => (s2, [])
    | Except.error _ => (s, [])
  | Op.finishOp, s =>
    let r := RevisionManager.finish cf s
    (r.2.2, r.2.1)

/-- Run a sequence of manager calls, threading the state and concatenating
the backend commit logs. -/
def runOps (cf : CommitFn) : List Op → RevisionState → RevisionState × CommitLog
  | [], s => (s, [])
  | op :: rest, s =>
    let r1 := applyOp cf op s
    let r2 := runOps cf rest r1.1
    (r2.1, r1.2 ++ r2.2)

/-- `keepsActive k body` holds when, starting at nesting depth `k + 1`,
the calls in `body` never bring the depth below 1 and end at depth exactly
1: `body` is the interior of an outermost transaction (its inner
`start`/`finish` pairs are balanced and prefix-wise non-negative). -/
def keepsActive : Nat → List Op → Bool
  | k, [] => k == 0
  | k, Op.startOp :: rest => keepsActive (k + 1) rest
  | k, Op.finishOp :: rest => decide (1 ≤ k) && keepsActive (k - 1) rest
  | k, Op.stageOp _ :: rest => keepsActive k rest
  | k, Op.invalidateOp :: rest => keepsActive k rest

/-- Run a sequence of `stage` calls only, threading the state and
concatenating the backend commit logs. -/
def stageRun (cf : CommitFn) : List Instance → RevisionState → RevisionState × CommitLog
  | [], s => (s, [])
  | inst :: rest, s =>
    let r1 := RevisionManager.stage cf inst s
    let r2 := stageRun cf rest r1.2.2
    (r2.1, r1.2.1 ++ r2.2)

/-- A field value supported by the snapshot serializer (spec section 4.3:
scalars, dates, booleans, identifiers; `None` for nullable fields). -/
inductive FieldValue where
  | intV (i : Int)
  | strV (s : String)
  | boolV (b : Bool)
  | dateV (year month day : Nat)
  | noneV
deriving DecidableEq, Repr

/-- The structure `RevisionManager.data` returns (base.py:132-135):
a dict with a `field` map of field name to captured value and a `related`
map of relation name to the list of related identifiers. -/
structure SnapshotData where
  field : List (String × FieldValue)
  related : List (String × List Int)
deriving DecidableEq, Repr

/-- Encode an integer: sign tag then absolute value. -/
def encInt (i : Int) : List Nat :=
  [if i < 0 then 1 else 0, i.natAbs]

/-- Decode an integer; inverse of `encInt` on encoder output. -/
def decInt : List Nat → Option (Int × List Nat)
  | sgn :: n :: rest => some (if sgn = 1 then -(n : Int) else (n : Int), rest)
  | _ => none

/-- Decode `n` character codes. -/
def decChars : Nat → List Nat → Option (List Char × List Nat)
  | 0, rest => some ([], rest)
  | _ + 1, [] => none
  | n + 1, c :: rest =>
    match decChars n rest with
    | none => none
    | some (cs, r) => some (Char.ofNat c :: cs, r)

/-- Encode a string: length prefix then one code point per character. -/
def encStr (s : String) : List Nat :=
  s.data.length :: s.data.map Char.toNat

/-- Decode a string; inverse of `encStr` on encoder output. -/
def decStr : List Nat → Option (String × List Nat)
  | [] => none
  | n :: rest =>
    match decChars n rest with
    | none => none
    | some (cs, r) => some (String.mk cs, r)

/-- Encode a list: length prefix then the concatenated element encodings. -/
def encListWith (enc : α → List Nat) (xs : List α) : List Nat :=
  xs.length :: (xs.map enc).flatten

/-- Decode `n` elements with the element decoder `dec`. -/
def decListWith (dec : List Nat → Option (α × List Nat)) :
    Nat → List Nat → Option (List α × List Nat)
  | 0, rest => some ([], rest)
  | n + 1, bytes =>
    match dec bytes with
    | none => none
    | some (a, r) =>
      match decListWith dec n r with
      | none => none
      | some (as, r2) => some (a :: as, r2)

/-- Decode a length-prefixed list; inverse of `encListWith` on encoder
output. -/
def decListTop (dec : List Nat → Option (α × List Nat)) :
    List Nat → Option (List α × List Nat)
  | [] => none
  | n :: rest => decListWith dec n rest

/-- Encode one supported field value, tag first. -/
def encFieldValue : FieldValue → List Nat
  | FieldValue.intV i => 0 :: encInt i
  | FieldValue.strV s => 1 :: encStr s
  | FieldValue.boolV b => 2 :: [cond b 1 0]
  | FieldValue.dateV y m d => 3 :: [y, m, d]
  | FieldValue.noneV => [4]

/-- Decode one supported field value; inverse of `encFieldValue` on
encoder output. -/
def decFieldValue : List Nat → Option (FieldValue × List Nat)
  | 0 :: rest =>
    match decInt rest with
    | none => none
    | some (i, r) => some (FieldValue.intV i, r)
  | 1 :: rest =>
    match decStr rest with
    | none => none
    | some (s, r) => some (FieldValue.strV s, r)
  | 2 :: b :: rest => some (FieldValue.boolV (b == 1), rest)
  | 3 :: y :: m :: d :: rest => some (FieldValue.dateV y m d, rest)
  | 4 :: rest => some (FieldValue.noneV, rest)
  | _ => none

/-- Encode one `field` entry: name then value. -/
def encFieldEntry (p : String × FieldValue) : List Nat :=
  encStr p.1 ++ encFieldValue p.2

/-- Decode one `field` entry. -/
def decFieldEntry (bytes : List Nat) : Option ((String × FieldValue) × List Nat) :=
  match decStr bytes with
  | none => none
  | some (k, r) =>
    match decFieldValue r with
    | none => none
    | some (v, r2) => some ((k, v), r2)

/-- Encode one `related` entry: name then identifier list. -/
def encRelatedEntry (p : String × List Int) : List Nat :=
  encStr p.1 ++ encListWith encInt p.2

/-- Decode one `related` entry. -/
def decRelatedEntry (bytes : List Nat) : Option ((String × List Int) × List Nat) :=
  match decStr bytes with
  | none => none
  | some (k, r) =>
    match decListTop decInt r with
    | none => none
    | some (ids, r2) => some ((k, ids), r2)

/-- Modelled from the spec: `pickle.dumps` (Python standard library,
imported by base.py:9-12 and external to this repository) applied to the
snapshot structure. Per spec section 4.3 it is an opaque binary encoding
whose round-trip with `pickle.loads` is lossless for all supported field
value types; it is modelled here as an executable length-prefixed
encoding of the `field` and `related` maps. -/
def pickleDumps (x : SnapshotData) : List Nat :=
  encListWith encFieldEntry x.field ++ encListWith encRelatedEntry x.related

/-- Modelled from the spec: `pickle.loads`, the inverse decoding of
`pickleDumps`; fails (returns `none`) on input that is not a complete
encoding of a snapshot structure. -/
def pickleLoads (bytes : List Nat) : Option SnapshotData :=
  match decListTop decFieldEntry bytes with
  | none => none
  | some (f, r1) =>
    match decListTop decRelatedEntry r1 with
    | none => none
    | some (rel, r2) => if r2 = [] then some { field := f, related := rel } else none

namespace RevisionManager

/-- `RevisionManager.serialize` (base.py:98-99):
`pickle.dumps(self.data(instance, related_updates=related_updates))`;
expressed on the computed snapshot structure. -/
def serialize (x : SnapshotData) : List Nat :=
  pickleDumps x

/-- `RevisionManager.deserialize` (base.py:101-102): `pickle.loads(data)`. -/
def deserialize (bytes : List Nat) : Option SnapshotData :=
  pickleLoads bytes

end RevisionManager

/-- A backend commit object as consumed by `Version` (base.py:240-301):
its hex identifier, its immediate-parent sequence (`commit.parents()`),
the recorded user primary key if any (`commit.user()`), the commit
message (`commit.description()`) and the `(timestamp, timezone offset)`
pair (`commit.date()`). -/
inductive Commit where
  | mk (hexVal : String) (parentsVal : List Commit) (userVal : Option Nat)
       (descriptionVal : String) (dateVal : Int × Int)

/-- The backend call `commit.hex()`. -/
def Commit.hexOf : Commit → String
  | Commit.mk h _ _ _ _ => h

/-- The backend call `commit.parents()`. -/
def Commit.parentsOf : Commit → List Commit
  | Commit.mk _ p _ _ _ => p

/-- The backend call `commit.user()`. -/
def Commit.userOf : Commit → Option Nat
  | Commit.mk _ _ u _ _ => u

/-- The backend call `commit.description()`. -/
def Commit.descriptionOf : Commit → String
  | Commit.mk _ _ _ d _ => d

/-- The backend call `commit.date()`. -/
def Commit.dateOf : Commit → Int × Int
  | Commit.mk _ _ _ _ t => t

/-- A Django user as resolved by the `user` accessor: either the
`AnonymousUser()` sentinel or the `User` with the given primary key. -/
inductive DjangoUser where
  | anonymous
  | known (pk : Nat)
deriving DecidableEq, Repr

/-- A `Version` object (base.py:240-243): the wrapped backend commit, the
`revision` attribute set in `__init__`, and the `_user` attribute cell,
absent until the `user` accessor assigns it (`hasattr(self, ...)`). -/
structure VersionObj where
  commit : Commit
  revision : String
  userCache : Option DjangoUser

/-- `Version.__init__` (base.py:241-243): store the commit and set
`self.revision = self._commit.hex()`; `_user` is not yet set. -/
def version_init (c : Commit) : VersionObj :=
  { commit := c, revision := c.hexOf, userCache := none }

/-- Outcome of one attribute access on a `Version`: the value produced or
the error raised, the object afterwards (its attribute cells may have
been assigned), how many calls the access made on the backend commit
object, and whether the access executed the `ipdb.set_trace()` debugger
trap left in the source. -/
structure Access (α : Type) where
  value : Except PyErr α
  obj : VersionObj
  backendCalls : Nat
  debuggerTrap : Bool

/-- `Version.parents` (base.py:257-260): a generator freshly created on
every access; it calls `self._commit.parents()` and wraps each element in
a `Version`. Nothing is cached. -/
def parentsAccess (v : VersionObj) : Access (List VersionObj) :=
  { value := Except.ok (v.commit.parentsOf.map version_init),
    obj := v, backendCalls := 1, debuggerTrap := false }

/-- `Version.parent` (base.py:262-275): draw up to two elements from the
`parents` generator; zero yields `None`, exactly one yields that parent,
a second element raises `VersionsMultipleParents`. Nothing is cached. -/
def parentAccess (v : VersionObj) : Access (Option VersionObj) :=
  match v.commit.parentsOf.map version_init with
  | [] => { value := Except.ok none, obj := v, backendCalls := 1, debuggerTrap := false }
  | [p] => { value := Except.ok (some p), obj := v, backendCalls := 1, debuggerTrap := false }
  | _ :: _ :: _ =>
    { value := Except.error (.multipleParents
        ("Found multiple parents for commit " ++ v.revision ++ ".")),
      obj := v, backendCalls := 1, debuggerTrap := false }

/-- `Version.user` (base.py:277-292). The accessor body begins with
`import ipdb` and `ipdb.set_trace()` (lines 279-280), an unconditional
debugger trap executed on every access, recorded here in `debuggerTrap`.
Then, when `_user` is unset, it fetches `self._commit.user()`; when that
is `None` the source assigns the local variable `user` instead of
`self._user`, so the final `return self._user` raises
`AttributeError` and nothing is cached; otherwise `User.objects.get`
resolves the primary key (`db` below tells whether the pk exists; lookup
failure falls back to `AnonymousUser()`) and the result is cached in
`self._user`. -/
def userAccess (db : Nat → Bool) (v : VersionObj) : Access DjangoUser :=
  match v.userCache with
  | some u => { value := Except.ok u, obj := v, backendCalls := 0, debuggerTrap := true }
  | none =>
    match v.commit.userOf with
    | none =>
      { value := Except.error (.attributeError "_user"),
        obj := v, backendCalls := 1, debuggerTrap := true }
    | some pk =>
      let u := if db pk then DjangoUser.known pk else DjangoUser.anonymous
      { value := Except.ok u, obj := { v with userCache := some u },
        backendCalls := 1, debuggerTrap := true }

/-- The timestamp normalization of `Version.date` (base.py:299-301):
`datetime.datetime.fromtimestamp(time.mktime(time.gmtime(t - tz)))`,
modelled as the epoch arithmetic `t - tz`. -/
def normalizeDate (t tz : Int) : Int :=
  t - tz

/-- `Version.message` (base.py:294-296): returns
`self._commit.description()`; the backend is called on every access,
nothing is cached. -/
def messageAccess (v : VersionObj) : Access String :=
  { value := Except.ok v.commit.descriptionOf, obj := v,
    backendCalls := 1, debuggerTrap := false }

/-- `Version.date` (base.py:298-301): calls `self._commit.date()` and
normalizes it on every access, nothing is cached. -/
def dateAccess (v : VersionObj) : Access Int :=
  { value := Except.ok (normalizeDate v.commit.dateOf.1 v.commit.dateOf.2),
    obj := v, backendCalls := 1, debuggerTrap := false }

/-- One entry of `settings.VERSIONS_REPOSITORIES`: the optional presence
of the `backend`, `local` and `remote` keys of the configuration dict. -/
structure RepoConfig where
  backendKind : Option String
  localPath : Option String
  remote : Option String
deriving DecidableEq, Repr

/-- Abstract handle for a constructed backend repository object. -/
abbrev RepoHandle := Nat

/-- The registry state `__getitem__` works on: the configured
`settings.VERSIONS_REPOSITORIES` mapping and the `self._repos` handle
cache (base.py:52, empty at manager construction). -/
structure Registry where
  settings : List (String × RepoConfig)
  repos : List (String × RepoHandle)
deriving DecidableEq, Repr

/-- `RevisionManager.__getitem__` (base.py:171-179). `mkRepo` abstracts
`load_backend(configs[backend]).Repository(configs[local], configs.get(remote))`.
If the key is not cached and is present in the settings, a configuration
missing `backend` or `local` raises `ImproperlyConfigured`; a complete one
constructs the handle and caches it. If the key is absent from the
settings the body falls through and the final `return self._repos[key]`
raises `KeyError`. Result components: the handle returned (or the error
raised), the registry afterwards, and the number of backend handle
constructions performed. -/
def getitem (mkRepo : String → String → Option String → RepoHandle)
    (key : String) (m : Registry) : Except PyErr RepoHandle × Registry × Nat :=
  match List.lookup key m.repos with
  | some h => (Except.ok h, m, 0)
  | none =>
    match List.lookup key m.settings with
    | none => (Except.error (.keyError key), m, 0)
    | some cfg =>
      match cfg.backendKind, cfg.localPath with
      | some b, some l =>
        let h := mkRepo b l cfg.remote
        (Except.ok h, { m with repos := setA key h m.repos }, 1)
      | some _, none => (Except.error (.configurationError key), m, 0)
      | none, _ => (Except.error (.configurationError key), m, 0)

/-- A concrete infallible backend for evaluating the embedding: the
Version token is derived from the repository name and item count. -/
def cfPure : String → ItemMap → VersionTok :=
  fun repo items => repo.length + items.length

/-- A concrete versioned model class, repository `default`. -/
def artistCls : PyClass :=
  { moduleName := "music", clsName := "Artist", repository := "default" }

/-- A concrete instance of `artistCls` with pk 1. -/
def inst0 : Instance :=
  { cls := artistCls, pk := 1, snapshot := [3, 5] }

/-- The same object as `inst0` (same class and pk, hence same repository
name and item path) with a later snapshot. -/
def inst1 : Instance :=
  { cls := artistCls, pk := 1, snapshot := [7, 7, 7] }

/-- A concrete instance living in another repository. -/
def inst2 : Instance :=
  { cls := { moduleName := "music", clsName := "Album", repository := "alt" },
    pk := 2, snapshot := [9] }

/-- A concrete outermost-transaction state with two dirty repositories. -/
def s1ex : RevisionState :=
  { objects := [("default", [("music/artist/1", [3, 5])]), ("alt", [("music/album/2", [9])])],
    user := none, message := "", depth := 1, is_invalid := false }

/-- A concrete root commit (no parents, no recorded user). -/
def cRoot : Commit :=
  Commit.mk "0000" [] none "root" (0, 0)

/-- A concrete commit with exactly one parent. -/
def cChild : Commit :=
  Commit.mk "aaaa" [cRoot] (some 1) "second" (100, 0)

/-- A concrete merge commit with two parents. -/
def cMerge : Commit :=
  Commit.mk "bbbb" [cRoot, cChild] (some 1) "merge" (200, 0)

/-- A concrete registry: only `default` is configured, completely. -/
def regEx : Registry :=
  { settings := [("default", { backendKind := some "hg", localPath := some "/tmp/repo", remote := none })],
    repos := [] }

/-- A concrete registry whose `broken` entry lacks the `local` key. -/
def regBroken : Registry :=
  { settings := [("broken", { backendKind := some "hg", localPath := none, remote := none })],
    repos := [] }

/-- A concrete backend handle constructor for evaluating the registry. -/
def mkRepoEx : String → String → Option String → RepoHandle :=
  fun b l _ => b.length + l.length

/-- A concrete transaction interior: a buffered stage, an invalidation,
then a nested transaction with another stage. -/
def opsEx : List Op :=
  [Op.stageOp inst0, Op.invalidateOp, Op.startOp, Op.stageOp inst1, Op.finishOp]

/-- The registry `regEx` after the `default` handle has been constructed
and cached by a first `getitem` call. -/
def regCached : Registry :=
  { regEx with repos := (setA "default" (mkRepoEx "hg" "/tmp/repo" none) regEx.repos) }

/-- Looking up a key just written by `setA` yields the written value. -/
theorem lookup_setA_self (k : String) (v : α) (m : List (String × α)) :
    List.lookup k (setA k v m) = some v := by
  induction m with
  | nil => simp [setA, List.lookup]
  | cons p rest ih =>
    obtain ⟨k2, v2⟩ := p
    by_cases h : k2 = k
    · simp [setA, h, List.lookup]
    · have hne : (k == k2) = false := beq_eq_false_iff_ne.mpr (Ne.symm h)
      simp [setA, if_neg h, List.lookup, hne, ih]

/-- The buffered map entry just written by `stageInsert` is the written
snapshot. -/
theorem lookup2_stageInsert_self (repo item : String) (d : Snap) (o : Objects) :
    lookup2 repo item (stageInsert repo item d o) = some d := by
  simp [lookup2, stageInsert, lookup_setA_self]

/-- With an infallible backend, the commit loop of `finish` returns one
Version per buffered repository entry and invokes the backend exactly on
the buffered entries, in order. -/
theorem commitLoop_liftOk (cf : String → ItemMap → VersionTok) (o : Objects) :
    RevisionManager.commitLoop (liftOk cf) o =
      (Except.ok (o.map fun p => (p.1, cf p.1 p.2)), o) := by
  induction o with
  | nil => rfl
  | cons p rest ih =>
    obtain ⟨repo, items⟩ := p
    simp [RevisionManager.commitLoop, liftOk, ih]

/-- C4: whenever the nesting depth is 0, `assert_active` (and hence
`invalidate`) fails — but with a `NameError`, not the management
exception the spec calls NotActiveError, because base.py:60 raises
`VersionsManagementException` without ever importing or defining that
name; whenever the depth is at least 1, `assert_active` succeeds and
`invalidate` only sets the invalid flag. Evaluated at depth 0 (the
freshly reset state) and depth 1. -/
theorem assert_active_name_error :
    RevisionManager.assert_active RevisionState.reset =
      Except.error (PyErr.nameError "VersionsManagementException") ∧
    RevisionManager.invalidate RevisionState.reset =
      Except.error (PyErr.nameError "VersionsManagementException") ∧
    RevisionManager.assert_active (RevisionManager.start RevisionState.reset) =
      Except.ok () ∧
    RevisionManager.invalidate (RevisionManager.start RevisionState.reset) =
      Except.ok { RevisionManager.start RevisionState.reset with is_invalid := true } :=
  ⟨rfl, rfl, rfl, rfl⟩

/-- C5: a `stage` call with no transaction active commits the single-item
map immediately and solely to the repository resolved for the object,
returns the Version that commit produced, and leaves the state (hence the
buffered object map) unchanged. -/
theorem stage_inactive_commits (cf : String → ItemMap → VersionTok)
    (inst : Instance) (s : RevisionState) (h : s.depth = 0) :
    RevisionManager.stage (liftOk cf) inst s =
      (Except.ok (some (cf (RevisionManager.repository_path inst.cls inst.pk)
          [(RevisionManager.item_path inst.cls inst.pk, inst.snapshot)])),
       [(RevisionManager.repository_path inst.cls inst.pk,
          [(RevisionManager.item_path inst.cls inst.pk, inst.snapshot)])],
       s) := by
  simp [RevisionManager.stage, RevisionManager.is_active, h, liftOk]

/-- Witness for C5 at a concrete instance and the reset state. -/
theorem stage_inactive_commits_witness :
    RevisionManager.stage (liftOk cfPure) inst0 RevisionState.reset =
      (Except.ok (some (cfPure (RevisionManager.repository_path inst0.cls inst0.pk)
          [(RevisionManager.item_path inst0.cls inst0.pk, inst0.snapshot)])),
       [(RevisionManager.repository_path inst0.cls inst0.pk,
          [(RevisionManager.item_path inst0.cls inst0.pk, inst0.snapshot)])],
       RevisionState.reset) :=
  stage_inactive_commits cfPure inst0 RevisionState.reset rfl

/-- C10: a `stage` call made while a transaction is active returns the
`None` value (no Version), performs no backend commit, and only buffers
the snapshot. -/
theorem stage_active_returns_none (cfe : CommitFn) (inst : Instance)
    (s : RevisionState) (h : 0 < s.depth) :
    RevisionManager.stage cfe inst s =
      (Except.ok none, [],
       { s with objects := (stageInsert (RevisionManager.repository_path inst.cls inst.pk)
           (RevisionManager.item_path inst.cls inst.pk) inst.snapshot s.objects) }) := by
  simp [RevisionManager.stage, RevisionManager.is_active, h]

/-- Witness for C10 at a concrete instance, inside one transaction. -/
theorem stage_active_returns_none_witness :
    RevisionManager.stage (liftOk cfPure) inst0 (RevisionManager.start RevisionState.reset) =
      (Except.ok none, [],
       { RevisionManager.start RevisionState.reset with
           objects := (stageInsert (RevisionManager.repository_path inst0.cls inst0.pk)
             (RevisionManager.item_path inst0.cls inst0.pk) inst0.snapshot
             (RevisionManager.start RevisionState.reset).objects) }) :=
  stage_active_returns_none (liftOk cfPure) inst0
    (RevisionManager.start RevisionState.reset) (by decide)

/-- C7: `Version.parent` returns `None` when the backend parent sequence
is empty, the unique parent Version when it has one element, and raises
`VersionsMultipleParents` when it has two or more. -/
theorem version_parent_linear (c : Commit) :
    (c.parentsOf = [] → (parentAccess (version_init c)).value = Except.ok none) ∧
    (∀ p, c.parentsOf = [p] →
      (parentAccess (version_init c)).value = Except.ok (some (version_init p))) ∧
    (∀ p q rest, c.parentsOf = p :: q :: rest →
      (parentAccess (version_init c)).value =
        Except.error (.multipleParents
          ("Found multiple parents for commit " ++ c.hexOf ++ "."))) := by
  refine ⟨fun h => ?_, fun p h => ?_, fun p q rest h => ?_⟩ <;>
    simp [parentAccess, version_init, h]

/-- Witness for C7 at a root commit, a single-parent commit and a
two-parent commit. -/
theorem version_parent_linear_witness :
    (parentAccess (version_init cRoot)).value = Except.ok none ∧
    (parentAccess (version_init cChild)).value = Except.ok (some (version_init cRoot)) ∧
    (parentAccess (version_init cMerge)).value =
      Except.error (PyErr.multipleParents
        ("Found multiple parents for commit " ++ cMerge.hexOf ++ ".")) :=
  ⟨(version_parent_linear cRoot).1 rfl,
   (version_parent_linear cChild).2.1 cRoot rfl,
   (version_parent_linear cMerge).2.2 cRoot cChild [] rfl⟩

/-- C8: evaluation of the derived-attribute accessors at a concrete
Version wrapping a commit with no recorded user. Accessing `user`
executes the debugger trap left at base.py:279-280 and, because the
`None` branch assigns a local variable instead of `self._user`, raises
`AttributeError` and caches nothing; `message`, `date` and `parents`
leave the object unchanged and make one backend call on each access (a
second access calls the backend again), contradicting the claim that all
derived attributes are computed once, cached and never re-fetched. -/
theorem version_attribute_access_bug :
    (userAccess (fun _ => false) (version_init cRoot)).debuggerTrap = true ∧
    (userAccess (fun _ => false) (version_init cRoot)).value =
      Except.error (PyErr.attributeError "_user") ∧
    (userAccess (fun _ => false) (version_init cRoot)).obj = version_init cRoot ∧
    (messageAccess (version_init cChild)).backendCalls = 1 ∧
    (messageAccess (messageAccess (version_init cChild)).obj).backendCalls = 1 ∧
    (messageAccess (version_init cChild)).obj = version_init cChild ∧
    (dateAccess (version_init cChild)).backendCalls = 1 ∧
    (dateAccess (version_init cChild)).obj = version_init cChild ∧
    (parentsAccess (version_init cChild)).backendCalls = 1 ∧
    (parentsAccess (version_init cChild)).obj = version_init cChild :=
  ⟨rfl, rfl, rfl, rfl, rfl, rfl, rfl, rfl, rfl, rfl⟩

/-- C1: a `finish` call that brings the depth to 0, with a non-empty
buffer and the invalid flag clear, invokes each buffered repository's
commit exactly once with that repository's full buffered item map,
returns one Version per buffered repository, and resets the transaction
state on every exit path — also when the backend commit raises, which the
arbitrary fallible `cfe` covers. -/
theorem finish_outermost_flush (cf : String → ItemMap → VersionTok) (cfe : CommitFn)
    (s : RevisionState) (hd : s.depth = 1) (hne : s.objects ≠ [])
    (hinv : s.is_invalid = false) (hnd : (s.objects.map Prod.fst).Nodup) :
    (RevisionManager.finish cfe s).2.2 = RevisionState.reset ∧
    RevisionManager.finish (liftOk cf) s =
      (Except.ok (s.objects.map fun p => (p.1, cf p.1 p.2)), s.objects, RevisionState.reset) ∧
    ∀ repo ∈ s.objects.map Prod.fst,
      ((RevisionManager.finish (liftOk cf) s).2.1.map Prod.fst).count repo = 1 := by
  have hact : RevisionManager.is_active s = true := by
    simp [RevisionManager.is_active, hd]
  have hok : RevisionManager.assert_active s = Except.ok () := by
    simp [RevisionManager.assert_active, hact]
  have hie : s.objects.isEmpty = false := by
    cases ho : s.objects with
    | nil => exact absurd ho hne
    | cons a t => rfl
  have hmain : RevisionManager.finish (liftOk cf) s =
      (Except.ok (s.objects.map fun p => (p.1, cf p.1 p.2)), s.objects, RevisionState.reset) := by
    simp [RevisionManager.finish, hok, hd, RevisionManager.is_invalid, hinv, hie,
      commitLoop_liftOk]
  refine ⟨?_, hmain, ?_⟩
  · unfold RevisionManager.finish
    rw [hok]
    simp only [hd]
    split
    · split <;> rfl
    · exact absurd trivial (by assumption)
  · intro repo hrepo
    rw [hmain]
    exact List.count_eq_one_of_mem hnd hrepo

/-- Witness for C1 at a concrete outermost transaction with two dirty
repositories. -/
theorem finish_outermost_flush_witness :
    (RevisionManager.finish (liftOk cfPure) s1ex).2.2 = RevisionState.reset ∧
    RevisionManager.finish (liftOk cfPure) s1ex =
      (Except.ok (s1ex.objects.map fun p => (p.1, cfPure p.1 p.2)), s1ex.objects,
        RevisionState.reset) ∧
    ((RevisionManager.finish (liftOk cfPure) s1ex).2.1.map Prod.fst).count "default" = 1 :=
  have h := finish_outermost_flush cfPure (liftOk cfPure) s1ex rfl (by decide) rfl (by decide)
  ⟨h.1, h.2.1, h.2.2 "default" (by decide)⟩

/-- C9 counterexample: with only `default` configured, `getitem` on an
entirely unconfigured name raises `KeyError` (from the final
`self._repos[key]` subscript, base.py:179), not the ConfigurationError
the claim requires. -/
theorem getitem_unconfigured_keyerror :
    (getitem mkRepoEx "missing" regEx).1 = Except.error (PyErr.keyError "missing") ∧
    (getitem mkRepoEx "missing" regEx).1 ≠ Except.error (PyErr.configurationError "missing") := by
  refine ⟨rfl, fun h => ?_⟩
  rw [show (getitem mkRepoEx "missing" regEx).1 =
        Except.error (PyErr.keyError "missing") from rfl] at h
  exact absurd (Except.error.inj h) (by intro h2; cases h2)

/-- C9 amended: a cached name returns its cached handle with no new
construction; a name absent from the settings raises `KeyError`; a
configured name missing `backend` or `local` raises the configuration
error; a completely configured name constructs the handle on the first
call, caches it, and the next call returns the identical handle with no
construction. -/
theorem getitem_amended (mk : String → String → Option String → RepoHandle)
    (key : String) (m : Registry) :
    (∀ h, List.lookup key m.repos = some h → getitem mk key m = (Except.ok h, m, 0)) ∧
    (List.lookup key m.repos = none → List.lookup key m.settings = none →
      getitem mk key m = (Except.error (.keyError key), m, 0)) ∧
    (∀ cfg, List.lookup key m.repos = none → List.lookup key m.settings = some cfg →
      (cfg.backendKind = none ∨ cfg.localPath = none) →
      getitem mk key m = (Except.error (.configurationError key), m, 0)) ∧
    (∀ cfg b l, List.lookup key m.repos = none → List.lookup key m.settings = some cfg →
      cfg.backendKind = some b → cfg.localPath = some l →
      getitem mk key m =
        (Except.ok (mk b l cfg.remote),
         { m with repos := (setA key (mk b l cfg.remote) m.repos) }, 1) ∧
      getitem mk key { m with repos := (setA key (mk b l cfg.remote) m.repos) } =
        (Except.ok (mk b l cfg.remote),
         { m with repos := (setA key (mk b l cfg.remote) m.repos) }, 0)) := by
  refine ⟨fun h hh => ?_, fun h1 h2 => ?_, fun cfg h1 h2 hbad => ?_,
    fun cfg b l h1 h2 hb hl => ⟨?_, ?_⟩⟩
  · simp [getitem, hh]
  · simp [getitem, h1, h2]
  · rcases hbad with hbk | hlp
    · simp [getitem, h1, h2, hbk]
    · cases hbk : cfg.backendKind <;> simp [getitem, h1, h2, hlp, hbk]
  · simp [getitem, h1, h2, hb, hl]
  · simp [getitem, lookup_setA_self]

/-- Witness for the amended C9 at concrete registries: unconfigured name,
incomplete configuration, first call constructing, second call cached. -/
theorem getitem_amended_witness :
    getitem mkRepoEx "missing" regEx = (Except.error (PyErr.keyError "missing"), regEx, 0) ∧
    getitem mkRepoEx "broken" regBroken =
      (Except.error (PyErr.configurationError "broken"), regBroken, 0) ∧
    getitem mkRepoEx "default" regEx = (Except.ok (mkRepoEx "hg" "/tmp/repo" none), regCached, 1) ∧
    getitem mkRepoEx "default" regCached =
      (Except.ok (mkRepoEx "hg" "/tmp/repo" none), regCached, 0) :=
  ⟨(getitem_amended mkRepoEx "missing" regEx).2.1 rfl rfl,
   (getitem_amended mkRepoEx "broken" regBroken).2.2.1
     { backendKind := some "hg", localPath := none, remote := none } rfl (by decide) (Or.inr rfl),
   ((getitem_amended mkRepoEx "default" regEx).2.2.2
     { backendKind := some "hg", localPath := some "/tmp/repo", remote := none }
     "hg" "/tmp/repo" rfl (by decide) rfl rfl).1,
   ((getitem_amended mkRepoEx "default" regEx).2.2.2
     { backendKind := some "hg", localPath := some "/tmp/repo", remote := none }
     "hg" "/tmp/repo" rfl (by decide) rfl rfl).2⟩

/-- Decoding the encoding of an integer consumes exactly it. -/
theorem decInt_enc (i : Int) (rest : List Nat) :
    decInt (encInt i ++ rest) = some (i, rest) := by
  by_cases h : i < 0
  · simp only [encInt, if_pos h, List.cons_append, List.nil_append, decInt]
    simp only [if_true, Option.some.injEq, Prod.mk.injEq, and_true]
    omega
  · simp only [encInt, if_neg h, List.cons_append, List.nil_append, decInt]
    simp only [OfNat.zero_ne_ofNat, if_false, Option.some.injEq, Prod.mk.injEq, and_true]
    omega

/-- Decoding the encoding of a character list consumes exactly it. -/
theorem decChars_enc (cs : List Char) (rest : List Nat) :
    decChars cs.length (cs.map Char.toNat ++ rest) = some (cs, rest) := by
  induction cs with
  | nil => rfl
  | cons c t ih => simp [decChars, ih, Char.ofNat_toNat]

/-- Decoding the encoding of a string consumes exactly it. -/
theorem decStr_enc (s : String) (rest : List Nat) :
    decStr (encStr s ++ rest) = some (s, rest) := by
  cases s with
  | mk data => simp [encStr, decStr, decChars_enc]

/-- Decoding the encoding of a field value consumes exactly it. -/
theorem decFieldValue_enc (v : FieldValue) (rest : List Nat) :
    decFieldValue (encFieldValue v ++ rest) = some (v, rest) := by
  cases v with
  | intV i => simp [encFieldValue, decFieldValue, decInt_enc]
  | strV s => simp [encFieldValue, decFieldValue, decStr_enc]
  | boolV b => cases b <;> rfl
  | dateV y m d => rfl
  | noneV => rfl

/-- Decoding `n` encoded elements consumes exactly them, given that the
element decoder inverts the element encoder. -/
theorem decListWith_enc (enc : α → List Nat) (dec : List Nat → Option (α × List Nat))
    (hinv : ∀ a rest, dec (enc a ++ rest) = some (a, rest))
    (xs : List α) (rest : List Nat) :
    decListWith dec xs.length ((xs.map enc).flatten ++ rest) = some (xs, rest) := by
  induction xs with
  | nil => rfl
  | cons x t ih =>
    simp only [List.map_cons, List.flatten_cons, List.length_cons, List.append_assoc,
      decListWith, hinv, ih]

/-- Decoding an encoded length-prefixed list consumes exactly it. -/
theorem decListTop_enc (enc : α → List Nat) (dec : List Nat → Option (α × List Nat))
    (hinv : ∀ a rest, dec (enc a ++ rest) = some (a, rest))
    (xs : List α) (rest : List Nat) :
    decListTop dec (encListWith enc xs ++ rest) = some (xs, rest) := by
  simp [encListWith, decListTop, decListWith_enc enc dec hinv]

/-- Decoding the encoding of a `field` entry consumes exactly it. -/
theorem decFieldEntry_enc (p : String × FieldValue) (rest : List Nat) :
    decFieldEntry (encFieldEntry p ++ rest) = some (p, rest) := by
  obtain ⟨k, v⟩ := p
  simp [encFieldEntry, decFieldEntry, List.append_assoc, decStr_enc, decFieldValue_enc]

/-- Decoding the encoding of a `related` entry consumes exactly it. -/
theorem decRelatedEntry_enc (p : String × List Int) (rest : List Nat) :
    decRelatedEntry (encRelatedEntry p ++ rest) = some (p, rest) := by
  obtain ⟨k, ids⟩ := p
  simp [encRelatedEntry, decRelatedEntry, List.append_assoc, decStr_enc,
    decListTop_enc encInt decInt decInt_enc]

/-- A silent call (one that committed nothing) prefixing a run is
absorbed into the run from its post-state. -/
theorem runOps_cons_of_silent (cf : CommitFn) (op : Op) (rest : List Op)
    (s s2 : RevisionState) (h : applyOp cf op s = (s2, [])) :
    runOps cf (op :: rest) s = runOps cf rest s2 := by
  simp [runOps, h]

/-- Runs distribute over list append: the state threads through and the
commit logs concatenate. -/
theorem runOps_append (cf : CommitFn) (l1 l2 : List Op) (s : RevisionState) :
    runOps cf (l1 ++ l2) s =
      ((runOps cf l2 (runOps cf l1 s).1).1,
       (runOps cf l1 s).2 ++ (runOps cf l2 (runOps cf l1 s).1).2) := by
  induction l1 generalizing s with
  | nil => simp [runOps]
  | cons op t ih => simp [runOps, ih, List.append_assoc]

/-- A `stage` call while a transaction is active only buffers: no commit,
no log. -/
theorem applyOp_stage_active (cf : CommitFn) (inst : Instance) (s : RevisionState)
    (h : 0 < s.depth) :
    applyOp cf (Op.stageOp inst) s =
      ({ s with objects := (stageInsert (RevisionManager.repository_path inst.cls inst.pk)
          (RevisionManager.item_path inst.cls inst.pk) inst.snapshot s.objects) }, []) := by
  simp [applyOp, RevisionManager.stage, RevisionManager.is_active, h]

/-- An `invalidate` call while a transaction is active sets the invalid
flag and nothing else. -/
theorem applyOp_invalidate_active (cf : CommitFn) (s : RevisionState) (h : 0 < s.depth) :
    applyOp cf Op.invalidateOp s = ({ s with is_invalid := true }, []) := by
  simp [applyOp, RevisionManager.invalidate, RevisionManager.assert_active,
    RevisionManager.is_active, h]

/-- A `finish` call at depth at least 2 only decrements the depth: no
flush, no reset, no commit. -/
theorem applyOp_finish_inner (cf : CommitFn) (s : RevisionState) (h : 2 ≤ s.depth) :
    applyOp cf Op.finishOp s = ({ s with depth := s.depth - 1 }, []) := by
  have h1 : RevisionManager.assert_active s = Except.ok () := by
    simp [RevisionManager.assert_active, RevisionManager.is_active]
    omega
  have h2 : ¬ (s.depth - 1 = 0) := by omega
  simp [applyOp, RevisionManager.finish, h1, h2]

/-- Interior of a transaction: a call sequence that keeps the depth at
least 1 and returns it to exactly 1 makes no backend commit, ends at
depth 1, and never clears the invalid flag — which is set at the end if
any `invalidate` occurred. -/
theorem runOps_keepsActive (cf : CommitFn) (body : List Op) :
    ∀ (k : Nat) (s : RevisionState), s.depth = k + 1 → keepsActive k body = true →
      (runOps cf body s).2 = [] ∧
      (runOps cf body s).1.depth = 1 ∧
      ((s.is_invalid = true ∨ Op.invalidateOp ∈ body) →
        (runOps cf body s).1.is_invalid = true) := by
  induction body with
  | nil =>
    intro k s hd hk
    have hk0 : k = 0 := by simpa [keepsActive] using hk
    refine ⟨rfl, by simp [runOps, hd, hk0], ?_⟩
    rintro (h | h)
    · simpa [runOps] using h
    · cases h
  | cons op rest ih =>
    intro k s hd hk
    cases op with
    | startOp =>
      have hk2 : keepsActive (k + 1) rest = true := by simpa [keepsActive] using hk
      have hs : (RevisionManager.start s).depth = (k + 1) + 1 := by
        simp [RevisionManager.start, hd]
      obtain ⟨g1, g2, g3⟩ := ih (k + 1) (RevisionManager.start s) hs hk2
      rw [runOps_cons_of_silent cf Op.startOp rest s (RevisionManager.start s) rfl]
      refine ⟨g1, g2, ?_⟩
      rintro (h | h)
      · exact g3 (Or.inl h)
      · rcases List.mem_cons.mp h with h2 | h2
        · cases h2
        · exact g3 (Or.inr h2)
    | stageOp inst =>
      have hk2 : keepsActive k rest = true := by simpa [keepsActive] using hk
      have hpos : 0 < s.depth := by omega
      set s2 : RevisionState :=
        { s with objects := (stageInsert (RevisionManager.repository_path inst.cls inst.pk)
            (RevisionManager.item_path inst.cls inst.pk) inst.snapshot s.objects) } with hs2
      obtain ⟨g1, g2, g3⟩ := ih k s2 (by simp [hs2, hd]) hk2
      rw [runOps_cons_of_silent cf (Op.stageOp inst) rest s s2
        (applyOp_stage_active cf inst s hpos)]
      refine ⟨g1, g2, ?_⟩
      rintro (h | h)
      · exact g3 (Or.inl h)
      · rcases List.mem_cons.mp h with h2 | h2
        · cases h2
        · exact g3 (Or.inr h2)
    | invalidateOp =>
      have hk2 : keepsActive k rest = true := by simpa [keepsActive] using hk
      have hpos : 0 < s.depth := by omega
      obtain ⟨g1, g2, g3⟩ := ih k { s with is_invalid := true } (by simp [hd]) hk2
      rw [runOps_cons_of_silent cf Op.invalidateOp rest s { s with is_invalid := true }
        (applyOp_invalidate_active cf s hpos)]
      exact ⟨g1, g2, fun _ => g3 (Or.inl rfl)⟩
    | finishOp =>
      have hk1 : 1 ≤ k ∧ keepsActive (k - 1) rest = true := by
        have h := hk
        simp only [keepsActive, Bool.and_eq_true, decide_eq_true_eq] at h
        exact h
      have hge : 2 ≤ s.depth := by omega
      obtain ⟨g1, g2, g3⟩ := ih (k - 1) { s with depth := s.depth - 1 }
        (by simp [hd]; omega) hk1.2
      rw [runOps_cons_of_silent cf Op.finishOp rest s { s with depth := s.depth - 1 }
        (applyOp_finish_inner cf s hge)]
      refine ⟨g1, g2, ?_⟩
      rintro (h | h)
      · exact g3 (Or.inl h)
      · rcases List.mem_cons.mp h with h2 | h2
        · cases h2
        · exact g3 (Or.inr h2)

/-- C2: in any outermost transaction whose interior keeps the nesting
depth at least 1 (arbitrary nested start/finish pairs, stages, and at
least one `invalidate` anywhere inside), the outermost `finish` invokes
no repository commit, returns the empty mapping, and leaves the state
equal to the freshly reset state; the whole trace commits nothing. -/
theorem invalidate_forces_empty_finish (cf : CommitFn) (body : List Op)
    (s0 : RevisionState) (h0 : s0.depth = 0) (hb : keepsActive 0 body = true)
    (hi : Op.invalidateOp ∈ body) :
    RevisionManager.finish cf (runOps cf (Op.startOp :: body) s0).1 =
      (Except.ok [], [], RevisionState.reset) ∧
    runOps cf (Op.startOp :: body ++ [Op.finishOp]) s0 = (RevisionState.reset, []) := by
  have hs : (RevisionManager.start s0).depth = 0 + 1 := by simp [RevisionManager.start, h0]
  obtain ⟨g1, g2, g3⟩ := runOps_keepsActive cf body 0 (RevisionManager.start s0) hs hb
  have hinv1 : (runOps cf body (RevisionManager.start s0)).1.is_invalid = true :=
    g3 (Or.inr hi)
  have hrun : runOps cf (Op.startOp :: body) s0 = runOps cf body (RevisionManager.start s0) :=
    runOps_cons_of_silent cf Op.startOp body s0 (RevisionManager.start s0) rfl
  have hfin : RevisionManager.finish cf (runOps cf body (RevisionManager.start s0)).1 =
      (Except.ok [], [], RevisionState.reset) := by
    have hact : RevisionManager.assert_active (runOps cf body (RevisionManager.start s0)).1 =
        Except.ok () := by
      simp [RevisionManager.assert_active, RevisionManager.is_active, g2]
    simp [RevisionManager.finish, hact, g2, RevisionManager.is_invalid, hinv1]
  refine ⟨by rw [hrun]; exact hfin, ?_⟩
  rw [show Op.startOp :: body ++ [Op.finishOp] = (Op.startOp :: body) ++ [Op.finishOp] from rfl,
    runOps_append, hrun, g1]
  simp [runOps, applyOp, hfin]

/-- Witness for C2 at a concrete trace: stage, invalidate, then a nested
transaction with another stage, closed by the outermost finish. -/
theorem invalidate_forces_empty_finish_witness :
    RevisionManager.finish (liftOk cfPure)
      (runOps (liftOk cfPure) (Op.startOp :: opsEx) RevisionState.reset).1 =
      (Except.ok [], [], RevisionState.reset) ∧
    runOps (liftOk cfPure) (Op.startOp :: opsEx ++ [Op.finishOp]) RevisionState.reset =
      (RevisionState.reset, []) :=
  invalidate_forces_empty_finish (liftOk cfPure) opsEx RevisionState.reset rfl
    (by decide) (by decide)

/-- A buffering `stage` call prefixing a stage run is absorbed into the
run from its post-state. -/
theorem stageRun_cons_of_silent (cf : CommitFn) (i : Instance) (t : List Instance)
    (s s2 : RevisionState)
    (h : RevisionManager.stage cf i s = (Except.ok none, [], s2)) :
    stageRun cf (i :: t) s = stageRun cf t s2 := by
  simp [stageRun, h]

/-- Staging a non-empty same-item sequence inside a transaction buffers
only the last snapshot at that key, commits nothing, and preserves depth
and the invalid flag. -/
theorem stageRun_active (cf : CommitFn) (repo item : String) :
    ∀ (insts : List Instance) (s : RevisionState) (hne : insts ≠ []),
      (∀ i ∈ insts, RevisionManager.repository_path i.cls i.pk = repo ∧
        RevisionManager.item_path i.cls i.pk = item) →
      0 < s.depth →
      lookup2 repo item (stageRun cf insts s).1.objects =
        some ((insts.getLast hne).snapshot) ∧
      (stageRun cf insts s).2 = [] ∧
      (stageRun cf insts s).1.depth = s.depth ∧
      (stageRun cf insts s).1.is_invalid = s.is_invalid := by
  intro insts
  induction insts with
  | nil => intro s hne _ _; exact absurd rfl hne
  | cons i t ih =>
    intro s hne hres hd
    have hstage : RevisionManager.stage cf i s =
        (Except.ok none, [], { s with objects := (stageInsert repo item i.snapshot s.objects) }) := by
      obtain ⟨h1, h2⟩ := hres i (List.mem_cons_self i t)
      rw [← h1, ← h2]
      simp [RevisionManager.stage, RevisionManager.is_active, hd]
    cases t with
    | nil =>
      refine ⟨?_, ?_, ?_, ?_⟩ <;> simp [stageRun, hstage, lookup2_stageInsert_self]
    | cons j t2 =>
      have hne2 : j :: t2 ≠ [] := by simp
      have hres2 : ∀ x ∈ j :: t2, RevisionManager.repository_path x.cls x.pk = repo ∧
          RevisionManager.item_path x.cls x.pk = item :=
        fun x hx => hres x (List.mem_cons_of_mem i hx)
      obtain ⟨g1, g2, g3, g4⟩ := ih { s with objects := (stageInsert repo item i.snapshot s.objects) }
        hne2 hres2 hd
      rw [stageRun_cons_of_silent cf i (j :: t2) s
        { s with objects := (stageInsert repo item i.snapshot s.objects) } hstage]
      exact ⟨by simpa [List.getLast_cons] using g1, g2, by simpa using g3, by simpa using g4⟩

/-- C3: for a non-empty sequence of `stage` calls that all resolve to the
same repository name and item path, made inside one transaction, the
buffered objects map afterwards holds exactly the last snapshot at that
key, no commit was made during the sequence, and (for an outermost valid
transaction) the item map passed to commit by `finish` is exactly that
buffered map, containing the last snapshot only. -/
theorem stage_last_write_wins (cf : CommitFn) (cf2 : String → ItemMap → VersionTok)
    (repo item : String) (insts : List Instance) (s : RevisionState) (hne : insts ≠ [])
    (hres : ∀ i ∈ insts, RevisionManager.repository_path i.cls i.pk = repo ∧
      RevisionManager.item_path i.cls i.pk = item)
    (hd : 0 < s.depth) :
    lookup2 repo item (stageRun cf insts s).1.objects =
      some ((insts.getLast hne).snapshot) ∧
    (stageRun cf insts s).2 = [] ∧
    (stageRun cf insts s).1.depth = s.depth ∧
    (s.depth = 1 → s.is_invalid = false →
      (RevisionManager.finish (liftOk cf2) (stageRun cf insts s).1).2.1 =
        (stageRun cf insts s).1.objects) := by
  obtain ⟨g1, g2, g3, g4⟩ := stageRun_active cf repo item insts s hne hres hd
  refine ⟨g1, g2, g3, fun h1 hi => ?_⟩
  have hd1 : (stageRun cf insts s).1.depth = 1 := by rw [g3, h1]
  have hinv : (stageRun cf insts s).1.is_invalid = false := by rw [g4, hi]
  have hobjne : (stageRun cf insts s).1.objects ≠ [] := by
    intro hh
    rw [hh] at g1
    simp [lookup2] at g1
  have hie : (stageRun cf insts s).1.objects.isEmpty = false := by
    cases ho : (stageRun cf insts s).1.objects with
    | nil => exact absurd ho hobjne
    | cons a t => rfl
  have hact : RevisionManager.assert_active (stageRun cf insts s).1 = Except.ok () := by
    simp [RevisionManager.assert_active, RevisionManager.is_active, hd1]
  simp [RevisionManager.finish, hact, hd1, RevisionManager.is_invalid, hinv, hie,
    commitLoop_liftOk]

/-- Witness for C3: two stages of the same object (same repository and
item path) inside one outermost transaction; the buffer holds the second
snapshot and the outermost flush passes exactly the buffered map. -/
theorem stage_last_write_wins_witness :
    lookup2 "default" "music/artist/1"
      (stageRun (liftOk cfPure) [inst0, inst1] (RevisionManager.start RevisionState.reset)).1.objects =
      some inst1.snapshot ∧
    (stageRun (liftOk cfPure) [inst0, inst1] (RevisionManager.start RevisionState.reset)).2 = [] ∧
    (stageRun (liftOk cfPure) [inst0, inst1] (RevisionManager.start RevisionState.reset)).1.depth =
      (RevisionManager.start RevisionState.reset).depth ∧
    (RevisionManager.finish (liftOk cfPure)
        (stageRun (liftOk cfPure) [inst0, inst1] (RevisionManager.start RevisionState.reset)).1).2.1 =
      (stageRun (liftOk cfPure) [inst0, inst1] (RevisionManager.start RevisionState.reset)).1.objects :=
  have h := stage_last_write_wins (liftOk cfPure) cfPure "default" "music/artist/1"
    [inst0, inst1] (RevisionManager.start RevisionState.reset) (by decide) (by decide) (by decide)
  ⟨h.1, h.2.1, h.2.2.1, h.2.2.2 rfl rfl⟩

/-- C6: the serialize/deserialize round-trip is lossless for every
snapshot structure over the supported field value types. -/
theorem serialize_roundtrip (x : SnapshotData) :
    RevisionManager.deserialize (RevisionManager.serialize x) = some x := by
  obtain ⟨f, rel⟩ := x
  have h1 := decListTop_enc encFieldEntry decFieldEntry decFieldEntry_enc f
    (encListWith encRelatedEntry rel)
  have h2 : decListTop decRelatedEntry (encListWith encRelatedEntry rel) = some (rel, []) := by
    have h := decListTop_enc encRelatedEntry decRelatedEntry decRelatedEntry_enc rel []
    simpa using h
  simp [RevisionManager.serialize, RevisionManager.deserialize, pickleDumps, pickleLoads, h1, h2]
